import Mathlib

/-!
Verification of the Chebyshev filter-approximation module
(`pygsp/filters/approximations.py`) of the pygsp repository, by a shallow
embedding of the `Chebyshev` class into Lean.  Machine floats are modelled
by exact arithmetic (`ℚ` for the computable paths, `ℝ` where the source
uses `np.cos` / `np.arccos`); a numpy NaN outcome is modelled by `none`;
a Python exception is modelled by `Except.error` carrying the exception
kind.  All evaluator embeddings are instantiated at one filter column and
one evaluation point (or a 1×1 operator): numpy broadcasting makes the
filter columns and the evaluation points fully independent of one another
in the source loops, so the general behaviour is the pointwise one.
-/

namespace Pygsp

/-- Python exception kinds raised by the embedded code paths.
`nameError` stands for `UnboundLocalError` (a subclass of `NameError`),
raised when a local variable is read before assignment; `indexError` for
numpy's `IndexError` on an out-of-range index such as `c[0]` on an array
with zero rows, or `shape[1]` on a 1-D array. -/
inductive PyErr
  | nameError
  | indexError
deriving DecidableEq

/-- Evaluation method names accepted by `Chebyshev._evaluate` via
`getattr(self, '_evaluate_' + method)`. -/
inductive Method
  | direct
  | recursive
deriving DecidableEq

/-- State bound by `Chebyshev.__init__`: the graph's spectral bound
`G.lmax`, the declared polynomial `order`, the coefficient array
`_coefficients` (rows = polynomial degrees, columns = filters) and the
filter count `Nf`. -/
structure ChebState (R : Type) where
  lmax : R
  order : ℕ
  coefficients : List (List R)
  Nf : ℕ
deriving DecidableEq

/-- Embeds `Chebyshev.__init__` on the coefficient-array branch.  In the
source, `_compute_coefficients` is a `pass` stub (it raises nothing), so
the `try` block next evaluates `filters.Nf`, which raises
`AttributeError` for a plain array; the bare `except` then runs
`self._coefficients = np.asarray(filters)` and
`self.Nf = self._coefficients.shape[1]`.  For a (rectangular) 2-D array
this always succeeds; `shape[1]` raises `IndexError` only when the array
is not 2-D (e.g. an empty list).  No validation whatsoever is performed:
`G.lmax` is not inspected at construction time and no shape is checked
against a declared filter count. -/
def chebInit (lmax : ℚ) (filters : List (List ℚ)) (order : ℕ) :
    Except PyErr (ChebState ℚ) :=
  match filters with
  | [] => Except.error PyErr.indexError
  | row :: rest => Except.ok ⟨lmax, order, row :: rest, row.length⟩

/-- Embeds the domain rescaling line `x = 2 * x / self.G.lmax - 1` of
`Chebyshev._evaluate` (the spec's `toChebyshevDomain`). -/
def rescale {R : Type} [DivisionRing R] (lmax x : R) : R :=
  2 * x / lmax - 1

/-- Scalar (1×1) shadow of the dead rescaling line of `Chebyshev._filter`,
`L = 2 * L - self.G.lmax / 2 - I`: numpy subtracts the scalar
`lmax / 2` entrywise, so on a 1×1 operator with entry `lam` the line
computes `2 * lam - lmax / 2 - 1`. -/
def rescaleOperatorLine {R : Type} [DivisionRing R] (lmax lam : R) : R :=
  2 * lam - lmax / 2 - 1

/-- Condition under which `Chebyshev._evaluate` emits its diagnostic
warning: `x.min() < 0 or x.max() > self.G.lmax`, i.e. some evaluation
point lies below `0` or some point lies above `lmax`.  The warning is a
logging side effect; it does not alter the returned value. -/
def chebWarns (lmax : ℝ) (xs : List ℝ) : Prop :=
  (∃ x ∈ xs, x < 0) ∨ (∃ x ∈ xs, lmax < x)

/-- Embeds the `for k in range(2, K)` loop of
`Chebyshev._evaluate_recursive`, at one filter column and one evaluation
point (or a 1×1 operator `x` applied to a 1-dimensional signal `s`, in
which case `x.dot(s)` is the product `x * s`).  Each iteration computes
`x2 = 2 * x.dot(s) * x1 - x0`, accumulates `result += c[k] * x2` and
shifts `x0, x1 = x1, x2`.  Note the source multiplies `x.dot(s)` by the
previous state `x1` instead of applying `x` to `x1`. -/
def chebRecLoop {R : Type} [CommRing R] (x s : R) : R → R → R → List R → R
  | _, _, acc, [] => acc
  | x0, x1, acc, ck :: rest =>
      chebRecLoop x s x1 (2 * (x * s) * x1 - x0)
        (acc + ck * (2 * (x * s) * x1 - x0)) rest

/-- Value computed by `Chebyshev._evaluate_recursive` at one filter column
and one evaluation point (or a 1×1 operator), given at least one
coefficient row.  The source sets `x0 = np.ones_like(x)` and
`result = c[0] * x0.dot(s)` (so `c0 * (1 * s)` in the 1×1 instance); if
`K > 1` it sets `x1 = x` and `result += c[1] * x1` — note: `c[1] * x1`,
the signal `s` is not applied — then runs the `k >= 2` loop.  On an empty
coefficient list the function returns the junk value `0`; the raising
behaviour is captured by `chebRecursiveExc`. -/
def chebRecValTot {R : Type} [CommRing R] (c : List R) (x s : R) : R :=
  match c with
  | [] => 0
  | [c0] => c0 * (1 * s)
  | c0 :: c1 :: rest => chebRecLoop x s 1 x (c0 * (1 * s) + c1 * x) rest

/-- Embeds `Chebyshev._evaluate_recursive` with its raising behaviour: the
first statement `result = c[0] * x0.dot(s)` raises `IndexError` when the
coefficient array has zero rows.  The declared `order` is bound on the
object (`self.order`) but never read by this method — the row count
`K = self._coefficients.shape[0]` alone drives the loop — which is why it
appears here as an unused argument. -/
def chebRecursiveExc {R : Type} [CommRing R] (order : ℕ) (c : List R)
    (x s : R) : Except PyErr R :=
  match c with
  | [] => Except.error PyErr.indexError
  | _ :: _ => Except.ok (chebRecValTot c x s)

/-- Chebyshev polynomials of the first kind, by the three-term
recurrence; mathematical yardstick used to relate the two evaluators. -/
def chebT {R : Type} [CommRing R] : ℕ → R → R
  | 0, _ => 1
  | 1, x => x
  | n + 2, x => 2 * x * chebT (n + 1) x - chebT n x

/-- Partial sums of a coefficient list against a family of basis values,
starting at basis index `k`. -/
def seriesWith {R : Type} [CommRing R] (t : ℕ → R) : ℕ → List R → R
  | _, [] => 0
  | k, c0 :: rest => c0 * t k + seriesWith t (k + 1) rest

/-- Recurrence carried on already-applied vectors, as the specification
states it (1×1 / scalar instance): `T_0 · s = s`, `T_1 · s = x * s`,
`T_k · s = 2 * x * (T_(k-1) · s) - T_(k-2) · s`.  This is the
specification's algorithm, written from the spec's words for comparison
with the source embedding `chebRecValTot`. -/
def chebAppliedT {R : Type} [CommRing R] (x s : R) : ℕ → R
  | 0 => s
  | 1 => x * s
  | n + 2 => 2 * x * chebAppliedT x s (n + 1) - chebAppliedT x s n

/-- Result the specification prescribes for the recursive evaluator:
`sum_k c_k * (T_k · s)` with the recurrence carried on applied vectors
(`chebAppliedT`).  Written from the spec's words for comparison with the
source embedding. -/
def chebClaimedRecursive {R : Type} [CommRing R] (c : List R) (x s : R) : R :=
  seriesWith (chebAppliedT x s) 0 c

/-- Value accumulated by the `for k in range(K)` loop of
`Chebyshev._evaluate_direct`, at one filter column and one evaluation
point with the default signal `s = 1`:
`result += c[k] * np.cos(k * np.arccos(x))` (the `.dot(s)` is the
identity for `s = 1`). -/
noncomputable def chebDirectVal (c : List ℝ) (x : ℝ) : ℝ :=
  (List.enum c).foldl
    (fun acc p => acc + p.2 * Real.cos ((p.1 : ℝ) * Real.arccos x)) 0

/-- Embeds `Chebyshev._evaluate_direct` at one filter column and one
evaluation point with `s = 1`, tracking numpy's NaN: `np.arccos` returns
NaN outside `[-1, 1]`, and the NaN propagates through every
`cos(k * x_arccos)` term (also `k = 0`, since `0 * nan = nan`), so with
at least one coefficient row an out-of-domain point yields NaN, modelled
as `none`.  With zero rows the loop body never runs and the
`np.zeros` initialiser `0` is returned unconditionally. -/
noncomputable def chebDirectPoint (c : List ℝ) (x : ℝ) : Option ℝ :=
  if c = [] then some 0
  else if -1 ≤ x ∧ x ≤ 1 then some (chebDirectVal c x) else none

/-- Embeds `Chebyshev._evaluate`: rescale every point by
`x = 2 * x / lmax - 1`, default the method to `'recursive'` when `None`,
then dispatch via `getattr(self, '_evaluate_' + method)`.  The recursive
dispatch passes only `x`, so the signal takes its default `s = 1`; it
raises `IndexError` when the coefficient array has zero rows.  The
diagnostic warning is the side condition `chebWarns` (checked on the
points before rescaling); it does not affect the returned value. -/
noncomputable def chebEvaluate (lmax : ℝ) (c : List ℝ) (xs : List ℝ)
    (method : Option Method) : Except PyErr (List (Option ℝ)) :=
  match method.getD Method.recursive with
  | Method.direct =>
      Except.ok ((xs.map (rescale lmax)).map (chebDirectPoint c))
  | Method.recursive =>
      match c with
      | [] => Except.error PyErr.indexError
      | _ :: _ =>
          Except.ok ((xs.map (rescale lmax)).map
            (fun y => some (chebRecValTot c y 1)))

/-- Embeds `Chebyshev._filter`.  Its first statement `M, M = L.shape`
reads the local variable `L`, which is assigned only two lines later
(`L = 2 * L - self.G.lmax / 2 - I`); since an assignment to `L` occurs in
the function body, Python treats `L` as local and the read raises
`UnboundLocalError` (a subclass of `NameError`) on every call, whatever
the signal and method.  The remaining statements — the identity matrix,
the rescaling line (shadowed by `rescaleOperatorLine`), and the dispatch
`return self._evaluate_direct(L, s)` — are unreachable. -/
def chebFilter {R : Type} (lmax : R) (coefficients : List (List R))
    (s : List R) (method : Method) : Except PyErr (List R) :=
  Except.error PyErr.nameError

/-- Calls a constructed `Chebyshev` object can receive after
construction: scalar-domain evaluation (`Filter.evaluate`, reaching
`_evaluate`) and operator-domain filtering (`Filter.filter`, reaching
`_filter`). -/
inductive ChebCall
  | evalCall (xs : List ℝ) (method : Option Method)
  | filterCall (s : List ℝ) (method : Method)

/-- Observable outcome of one call. -/
inductive ChebOutcome
  | evalRes (r : Except PyErr (List (Option ℝ)))
  | filterRes (r : Except PyErr (List ℝ))

/-- One call against the object state.  The source methods `_evaluate`,
`_evaluate_direct`, `_evaluate_recursive` and `_filter` contain no
assignment to any `self` attribute (all updated names — `x`, `c`,
`result`, `x0`, `x1`, `x2`, `L`, `I`, `M`, `method` — are locals, and
`c.reshape` returns a new view without touching the stored array), so
the state component is returned unchanged; the evaluators read the first
filter column of the stored coefficient array. -/
noncomputable def chebStep (st : ChebState ℝ) (call : ChebCall) :
    ChebState ℝ × ChebOutcome :=
  match call with
  | ChebCall.evalCall xs m =>
      (st, ChebOutcome.evalRes
        (chebEvaluate st.lmax (st.coefficients.map List.headI) xs m))
  | ChebCall.filterCall s m =>
      (st, ChebOutcome.filterRes (chebFilter st.lmax st.coefficients s m))

/-- Runs a sequence of evaluate/filter calls from an initial state,
threading the state. -/
noncomputable def chebRun (st : ChebState ℝ) (calls : List ChebCall) :
    ChebState ℝ :=
  calls.foldl (fun s c => (chebStep s c).1) st

/-- K = 1 branch of `Chebyshev._evaluate_recursive` for a 2×2 operator
`x` and a 2-dimensional signal `s`: `x0 = np.ones_like(x)` is the
all-ones 2×2 matrix and `result = c[0] * x0.dot(s)`, whose every entry is
`c0 * (s 0 + s 1)`. -/
def chebRecK1Op2 (c0 : ℚ) (s : Fin 2 → ℚ) : Fin 2 → ℚ :=
  fun j => c0 * ((Matrix.of fun _ _ => (1 : ℚ)).mulVec s j)

/-! Helper lemmas relating the two evaluators. -/

theorem chebT_two_step {R : Type} [CommRing R] (n : ℕ) (x : R) :
    chebT (n + 2) x = 2 * x * chebT (n + 1) x - chebT n x := by
  simp [chebT]

theorem cos_nat_mul_arccos_pair (x : ℝ) (hx1 : -1 ≤ x) (hx2 : x ≤ 1)
    (k : ℕ) :
    Real.cos ((k : ℝ) * Real.arccos x) = chebT k x ∧
      Real.cos (((k : ℝ) + 1) * Real.arccos x) = chebT (k + 1) x := by
  induction k with
  | zero =>
    constructor
    · simp [chebT]
    · simp [chebT, Real.cos_arccos hx1 hx2]
  | succ n ih =>
    refine ⟨by push_cast; exact ih.2, ?_⟩
    have hsplit : ((n : ℝ) + 1 + 1) * Real.arccos x
        = ((n : ℝ) + 1) * Real.arccos x + Real.arccos x := by ring
    have hprev : (n : ℝ) * Real.arccos x
        = ((n : ℝ) + 1) * Real.arccos x - Real.arccos x := by ring
    have hcos : Real.cos (Real.arccos x) = x := Real.cos_arccos hx1 hx2
    have h1 := ih.1
    rw [hprev, Real.cos_sub, hcos] at h1
    push_cast
    rw [hsplit, Real.cos_add, hcos, chebT_two_step, ← ih.2]
    linarith [h1]

theorem cos_nat_mul_arccos (x : ℝ) (hx1 : -1 ≤ x) (hx2 : x ≤ 1) (k : ℕ) :
    Real.cos ((k : ℝ) * Real.arccos x) = chebT k x :=
  (cos_nat_mul_arccos_pair x hx1 hx2 k).1

theorem chebDirect_foldl_aux (x : ℝ) (c : List ℝ) :
    ∀ (k : ℕ) (acc : ℝ),
      (List.enumFrom k c).foldl
          (fun acc p => acc + p.2 * Real.cos ((p.1 : ℝ) * Real.arccos x))
          acc
        = acc
          + seriesWith (fun j => Real.cos ((j : ℝ) * Real.arccos x)) k c := by
  induction c with
  | nil => intro k acc; simp [seriesWith]
  | cons c0 rest ih =>
    intro k acc
    simp only [List.enumFrom, List.foldl, seriesWith]
    rw [ih]
    ring

theorem chebDirectVal_eq_series (c : List ℝ) (x : ℝ) :
    chebDirectVal c x
      = seriesWith (fun j => Real.cos ((j : ℝ) * Real.arccos x)) 0 c := by
  have h := chebDirect_foldl_aux x c 0 0
  simpa [chebDirectVal, List.enum] using h

theorem series_cos_eq_series_chebT (x : ℝ) (hx1 : -1 ≤ x) (hx2 : x ≤ 1)
    (c : List ℝ) :
    ∀ k : ℕ,
      seriesWith (fun j => Real.cos ((j : ℝ) * Real.arccos x)) k c
        = seriesWith (fun j => chebT j x) k c := by
  induction c with
  | nil => intro k; simp [seriesWith]
  | cons c0 rest ih =>
    intro k
    simp only [seriesWith, ih, cos_nat_mul_arccos x hx1 hx2 k]

theorem chebRecLoop_invariant {R : Type} [CommRing R] (x : R)
    (rest : List R) :
    ∀ (k : ℕ) (acc : R),
      chebRecLoop x 1 (chebT k x) (chebT (k + 1) x) acc rest
        = acc + seriesWith (fun j => chebT j x) (k + 2) rest := by
  induction rest with
  | nil => intro k acc; simp [chebRecLoop, seriesWith]
  | cons ck rest ih =>
    intro k acc
    have hx2 : 2 * (x * 1) * chebT (k + 1) x - chebT k x
        = chebT (k + 2) x := by
      rw [chebT_two_step]; ring
    show chebRecLoop x 1 (chebT (k + 1) x)
        (2 * (x * 1) * chebT (k + 1) x - chebT k x)
        (acc + ck * (2 * (x * 1) * chebT (k + 1) x - chebT k x)) rest = _
    rw [hx2, ih (k + 1)]
    simp only [seriesWith]
    ring

theorem chebRecValTot_eq_series {R : Type} [CommRing R] (c : List R)
    (x : R) (hc : c ≠ []) :
    chebRecValTot c x 1 = seriesWith (fun j => chebT j x) 0 c := by
  match c with
  | [c0] => simp [chebRecValTot, seriesWith, chebT]
  | c0 :: c1 :: rest =>
    show chebRecLoop x 1 1 x (c0 * (1 * 1) + c1 * x) rest = _
    have h := chebRecLoop_invariant x rest 0 (c0 * (1 * 1) + c1 * x)
    have h0 : chebT 0 x = (1 : R) := rfl
    have h1 : chebT 1 x = x := rfl
    rw [h0, h1] at h
    rw [h]
    simp only [seriesWith]
    have ht0 : chebT 0 x = (1 : R) := rfl
    have ht1 : chebT 1 x = x := rfl
    rw [ht0, ht1]
    ring

theorem direct_eq_recursive_point (c : List ℝ) (x : ℝ) (hc : c ≠ [])
    (hx1 : -1 ≤ x) (hx2 : x ≤ 1) :
    chebDirectPoint c x = some (chebRecValTot c x 1) := by
  rw [chebDirectPoint, if_neg hc, if_pos (And.intro hx1 hx2)]
  rw [chebDirectVal_eq_series, series_cos_eq_series_chebT x hx1 hx2 c 0,
    chebRecValTot_eq_series c x hc]

/-! Claim theorems. -/

/-- C1: the recursive evaluator does NOT carry the three-term recurrence
on already-applied vectors.  At the 1×1 operator `x = [[1]]`, signal
`s = [2]` and coefficients `c = [0, 0, 1]` (K = 3 rows), the source
computes `x1 = x` (never applying `s`) and
`x2 = 2 * x.dot(s) * x1 - x0 = 2*(1*2)*1 - 1 = 3`, returning `3`,
whereas the recurrence on applied vectors prescribed by the claim gives
`T_2 · s = 2 * x * (x · s) - s = 2` and result `2`. -/
theorem recursive_recurrence_not_on_applied_vectors :
    chebRecursiveExc 2 ([0, 0, 1] : List ℚ) 1 2 = Except.ok 3 ∧
      chebClaimedRecursive ([0, 0, 1] : List ℚ) 1 2 = 2 := by
  constructor
  · show Except.ok (chebRecValTot ([0, 0, 1] : List ℚ) 1 2) = Except.ok 3
    norm_num [chebRecValTot, chebRecLoop]
  · show seriesWith (chebAppliedT (1 : ℚ) 2) 0 [0, 0, 1] = 2
    norm_num [seriesWith, chebAppliedT]

/-- C3: the filtering entry point `_filter` never dispatches to the
recursive algorithm; on the concrete call (`lmax = 2`, one constant
filter, signal `[1, 1]`, method `recursive`) it raises
`UnboundLocalError`/`NameError` before any dispatch — and its dead
dispatch line reads `self._evaluate_direct(L, s)`, not the recursive
evaluator. -/
theorem filter_never_reaches_recursive_dispatch :
    chebFilter (2 : ℚ) [[1]] [1, 1] Method.recursive
      = Except.error PyErr.nameError := rfl

/-- C4: the filtering entry point does not rescale the operator by
`L' = (2 / lambda_max) * L - I`: it raises `NameError` before the
rescaling line can run, and that (dead) line computes
`2 * L - lmax / 2 - I` — at `lmax = 4` and eigenvalue `0` it would give
`-3` where the claimed affine map gives `-1`. -/
theorem filter_rescaling_unreachable_and_wrong :
    chebFilter (4 : ℚ) [[1], [0]] [1] Method.direct
        = Except.error PyErr.nameError ∧
      rescaleOperatorLine (4 : ℚ) 0 ≠ rescale (4 : ℚ) 0 := by
  constructor
  · rfl
  · norm_num [rescaleOperatorLine, rescale]

/-- C5: every call of the operator-domain filtering entry point raises a
`NameError` before producing any result: the first statement
`M, M = L.shape` reads the local `L` before its (only, later)
assignment. -/
theorem filter_always_raises_name_error (lmax : ℚ)
    (coefficients : List (List ℚ)) (s : List ℚ) (method : Method) :
    chebFilter lmax coefficients s method
      = Except.error PyErr.nameError := rfl

/-- C7: the low-order degenerate forms fail on the source.  With two
coefficient rows `c = [0, 1]`, 1×1 operator `x = [[1]]` and signal
`s = [2]`, the source adds `c[1] * x1` with `x1 = x` (the signal is
never applied) and returns `1`, while the claimed form
`c_0 * s + c_1 * (x · s)` gives `2`.  With one row `c = [2]` and a 2×2
operator, the source returns `c[0] * ones_like(x).dot(s)`, which at
`s = (1, 0)` has second entry `2`, while the claimed `c_0 * s` has
second entry `0`. -/
theorem recursive_low_order_divergence :
    chebRecursiveExc 1 ([0, 1] : List ℚ) 1 2 = Except.ok 1 ∧
      chebClaimedRecursive ([0, 1] : List ℚ) 1 2 = 2 ∧
      chebRecK1Op2 2 (fun j => if j = 0 then 1 else 0) 1 = 2 := by
  refine ⟨?_, ?_, ?_⟩
  · show Except.ok (chebRecValTot ([0, 1] : List ℚ) 1 2) = Except.ok 1
    norm_num [chebRecValTot, chebRecLoop]
  · show seriesWith (chebAppliedT (1 : ℚ) 2) 0 [0, 1] = 2
    norm_num [seriesWith, chebAppliedT]
  · show (2 : ℚ) * ((Matrix.of fun _ _ => (1 : ℚ)).mulVec
        (fun j => if j = 0 then 1 else 0) 1) = 2
    simp [Matrix.mulVec, Matrix.dotProduct, Fin.sum_univ_two]

/-- C9 counterexample: with declared order `5` and a coefficient array of
2 rows (inconsistent: a degree-5 series has 6 rows), the recursive
evaluator does not fail with any error — it returns `Except.ok 1` —
because `self.order` is never consulted. -/
theorem recursive_accepts_inconsistent_order :
    chebRecursiveExc 5 ([1, 2] : List ℚ) 0 1 = Except.ok 1 := by
  show Except.ok (chebRecValTot ([1, 2] : List ℚ) 0 1) = Except.ok 1
  norm_num [chebRecValTot, chebRecLoop]

/-- C9 (amended): on a coefficient array with zero rows the recursive
evaluator raises an `IndexError` (from `c[0]`), not an
`EmptyCoefficientsError` (no such error kind exists in the source); and
the declared order is never read, so the result is entirely independent
of it — in particular an order inconsistent with the row count is not
rejected with any `ShapeMismatchError`. -/
theorem recursive_empty_index_error_and_order_unread :
    (∀ (order : ℕ) (x s : ℚ),
        chebRecursiveExc order ([] : List ℚ) x s
          = Except.error PyErr.indexError) ∧
      (∀ (o o' : ℕ) (c : List ℚ) (x s : ℚ),
        chebRecursiveExc o c x s = chebRecursiveExc o' c x s) := by
  constructor
  · intro _ _ _; rfl
  · intro o o' c x s; cases c <;> rfl

/-- C10: no evaluate or filter call mutates the constructed object: after
any sequence of calls the stored coefficient array and the stored order
are those fixed at construction time.  The source methods assign only to
local variables, never to `self` attributes. -/
theorem coefficients_never_mutated (st : ChebState ℝ)
    (calls : List ChebCall) :
    (chebRun st calls).coefficients = st.coefficients ∧
      (chebRun st calls).order = st.order := by
  have hstep : ∀ (s : ChebState ℝ) (c : ChebCall), (chebStep s c).1 = s := by
    intro s c; cases c <;> rfl
  induction calls generalizing st with
  | nil => exact ⟨rfl, rfl⟩
  | cons c cs ih =>
    have : chebRun st (c :: cs) = chebRun ((chebStep st c).1) cs := rfl
    rw [this, hstep st c]
    exact ih st

/-- C2: for every non-empty coefficient column and every list of scalar
evaluation points lying in the rescaled domain `[-1, 1]`, with the
default signal `s = 1`, the direct evaluator and the recursive evaluator
return the same values in exact arithmetic (whence agreement within any
relative tolerance in floating point). -/
theorem direct_recursive_agree (c : List ℝ) (xs : List ℝ) (hc : c ≠ [])
    (hxs : ∀ x ∈ xs, -1 ≤ x ∧ x ≤ 1) :
    xs.map (chebDirectPoint c)
      = xs.map (fun x => some (chebRecValTot c x 1)) := by
  induction xs with
  | nil => rfl
  | cons x rest ih =>
    have hx := hxs x (List.mem_cons_self x rest)
    simp only [List.map]
    rw [direct_eq_recursive_point c x hc hx.1 hx.2,
      ih (fun y hy => hxs y (List.mem_cons_of_mem x hy))]

/-- Witness for C2 at the concrete input `c = [1]`, `xs = [0]`. -/
theorem direct_recursive_agree_witness :
    (([1] : List ℝ) ≠ [] ∧ ∀ x ∈ ([0] : List ℝ), -1 ≤ x ∧ x ≤ 1) ∧
      ([0] : List ℝ).map (chebDirectPoint [1])
        = ([0] : List ℝ).map (fun x => some (chebRecValTot [1] x 1)) := by
  have h1 : ([1] : List ℝ) ≠ [] := by simp
  have h2 : ∀ x ∈ ([0] : List ℝ), -1 ≤ x ∧ x ≤ 1 := by
    intro x hx
    simp only [List.mem_singleton] at hx
    subst hx
    norm_num
  exact ⟨⟨h1, h2⟩, direct_recursive_agree [1] [0] h1 h2⟩

/-- C6 counterexample: at `lambda_max = 2`, coefficients `[1]` and the
single out-of-domain point `x = lambda_max + 1 = 3`, the DIRECT method
does not return a finite numeric value: the point rescales to `2`,
outside `[-1, 1]`, where `np.arccos` yields NaN (modelled `none`), which
propagates to the result.  This refutes the claim's "returns a finite
numeric value for every evaluated point, under both the direct and the
recursive method". -/
theorem evaluate_direct_out_of_domain_nan :
    chebEvaluate 2 [1] [3] (some Method.direct) = Except.ok [none] := by
  show Except.ok ([chebDirectPoint [1] (rescale 2 3)]) = Except.ok [none]
  have hx : rescale (2 : ℝ) 3 = 2 := by norm_num [rescale]
  rw [hx, chebDirectPoint, if_neg (by simp), if_neg (by norm_num)]

/-- C6 (amended): an evaluation input containing a point outside
`[0, lambda_max]` triggers the diagnostic warning and, under the
RECURSIVE method (with a non-empty coefficient column), still raises no
exception and returns a finite numeric value for every evaluated point;
under the direct method out-of-domain points yield NaN rather than a
finite extrapolated value. -/
theorem evaluate_out_of_domain_warns_recursive_finite (lmax : ℝ)
    (c xs : List ℝ) (y : ℝ) (hl : 0 < lmax) (hc : c ≠ []) (hy : y ∈ xs)
    (hout : y < 0 ∨ lmax < y) :
    chebWarns lmax xs ∧
      ∃ l, chebEvaluate lmax c xs (some Method.recursive) = Except.ok l ∧
        ∀ r ∈ l, r ≠ none := by
  constructor
  · cases hout with
    | inl h => exact Or.inl ⟨y, hy, h⟩
    | inr h => exact Or.inr ⟨y, hy, h⟩
  · match c with
    | c0 :: ct =>
      refine ⟨(xs.map (rescale lmax)).map
        (fun z => some (chebRecValTot (c0 :: ct) z 1)), rfl, ?_⟩
      intro r hr
      simp only [List.mem_map] at hr
      obtain ⟨z, -, rfl⟩ := hr
      simp

/-- Witness for C6 (amended) at `lmax = 2`, `c = [1]`, `xs = [3]`. -/
theorem evaluate_out_of_domain_warns_recursive_finite_witness :
    ((0 : ℝ) < 2 ∧ ([1] : List ℝ) ≠ [] ∧ (3 : ℝ) ∈ ([3] : List ℝ) ∧
        ((3 : ℝ) < 0 ∨ (2 : ℝ) < 3)) ∧
      (chebWarns 2 [3] ∧
        ∃ l, chebEvaluate 2 [1] [3] (some Method.recursive) = Except.ok l ∧
          ∀ r ∈ l, r ≠ none) := by
  refine ⟨⟨by norm_num, by simp, by simp, Or.inr (by norm_num)⟩, ?_⟩
  exact evaluate_out_of_domain_warns_recursive_finite 2 [1] [3] 3
    (by norm_num) (by simp) (by simp) (Or.inr (by norm_num))

/-- C8 counterexample: construction with `lambda_max = -1 ≤ 0` (and a
well-formed 1-column coefficient array) does not fail with any error —
no `InvalidDomainError` exists in the source and `G.lmax` is never
inspected at construction time. -/
theorem init_accepts_nonpositive_lmax :
    chebInit (-1) [[1]] 30 = Except.ok ⟨-1, 30, [[1]], 1⟩ := rfl

/-- C8 (amended): construction performs no validation at all: for every
`lambda_max ≤ 0` and every non-empty coefficient array it succeeds,
storing the array as supplied and deriving the filter count from the
first row's length instead of checking it against any declared count.
(The only construction-time failure on the array branch is an
`IndexError` from `shape[1]` when the array is not 2-D.) -/
theorem init_no_validation (lmax : ℚ) (filters : List (List ℚ)) (order : ℕ)
    (hl : lmax ≤ 0) (hf : filters ≠ []) :
    ∃ st, chebInit lmax filters order = Except.ok st ∧
      st.lmax = lmax ∧ st.coefficients = filters ∧ st.order = order := by
  match filters with
  | row :: rest => exact ⟨⟨lmax, order, row :: rest, row.length⟩, rfl, rfl, rfl, rfl⟩

/-- Witness for C8 (amended) at `lmax = -1`, one coefficient row. -/
theorem init_no_validation_witness :
    ((-1 : ℚ) ≤ 0 ∧ ([[1]] : List (List ℚ)) ≠ []) ∧
      ∃ st, chebInit (-1) [[1]] 30 = Except.ok st ∧
        st.lmax = -1 ∧ st.coefficients = [[1]] ∧ st.order = 30 := by
  exact ⟨⟨by norm_num, by simp⟩,
    init_no_validation (-1) [[1]] 30 (by norm_num) (by simp)⟩

end Pygsp
